import Mathlib

/-!
Shallow embedding of the two scraper scripts of this repository
(src/scrape_osgoode.py and src/scrape_outlines.py) and proofs about the
claims of its specification.

Pure string processing (the regular-expression based field extraction and
filename sanitization) is translated to executable functions on `List Char`;
the stateful browser interactions (navigation, DOM evaluation, HTTP fetches)
are modelled by explicit outcome records (`PageOps`, `PdfOps`): each page
operation the Python code awaits inside its try-block either returns a value
or raises with a message (`Except String _`), exactly the two behaviours the
source distinguishes.  Python dictionaries are modelled as association lists
in insertion order, with `lookupA`, `setKey` and `updateAssoc` mirroring
`d[k]`, `d[k] = v` and `d.update(e)`.
-/

/-- The character class `[<>:"/\\|?*]` of `sanitize_filename`
(src/scrape_outlines.py line 42): the characters illegal in filenames on
Windows/macOS/Linux.  The double-quote character is written via its code
point. -/
def illegalChar (c : Char) : Bool :=
  c = '<' || c = '>' || c = ':' || c = Char.ofNat 34 || c = '/' ||
  c = '\\' || c = '|' || c = '?' || c = '*'

/-- The whitespace class used by Python's `\s` and `str.strip()`,
restricted to its ASCII members: space, tab, newline, carriage return,
vertical tab, form feed. -/
def pySpace (c : Char) : Bool :=
  c = ' ' || c = '\t' || c = '\n' || c = '\r' || c = '\x0b' || c = '\x0c'

/-- One pass of `re.sub(r'\s+', ' ', name)` (src/scrape_outlines.py
line 43): every maximal run of whitespace becomes a single space.  The
boolean flag records whether we are currently inside a run whose single
space has already been emitted. -/
def collapseAux : Bool → List Char → List Char
  | _, [] => []
  | inRun, c :: cs =>
    if pySpace c then
      if inRun then collapseAux true cs else ' ' :: collapseAux true cs
    else c :: collapseAux false cs

/-- Python `str.strip()` on a character list: drop leading and trailing
whitespace. -/
def pyStripL (l : List Char) : List Char :=
  ((l.dropWhile pySpace).reverse.dropWhile pySpace).reverse

/-- Python `str.rstrip()` on a character list: drop trailing whitespace. -/
def pyRstripL (l : List Char) : List Char :=
  (l.reverse.dropWhile pySpace).reverse

/-- The first three statements of `sanitize_filename`
(src/scrape_outlines.py lines 42-43): replace illegal characters by an
underscore, collapse whitespace runs to single spaces, strip. -/
def sanitizeCore (l : List Char) : List Char :=
  pyStripL (collapseAux false
    (l.map (fun c => if illegalChar c then '_' else c)))

/-- `sanitize_filename` of src/scrape_outlines.py lines 39-46, at the level
of character lists: after `sanitizeCore`, if the result exceeds `max_len`
truncate to `max_len` and right-strip (lines 44-45). -/
def sanitizeL (l : List Char) (max_len : Nat) : List Char :=
  if max_len < (sanitizeCore l).length then
    pyRstripL ((sanitizeCore l).take max_len)
  else sanitizeCore l

/-- `sanitize_filename(name, max_len)` of src/scrape_outlines.py lines
39-46 (the Python default for `max_len` is 200). -/
def sanitize_filename (name : String) (max_len : Nat) : String :=
  String.mk (sanitizeL name.data max_len)

/-- Python `str.strip()` on strings. -/
def pyStripS (s : String) : String :=
  String.mk (pyStripL s.data)

example : sanitize_filename "a:b?c*d" 200 = "a_b_c_d" := by rfl
example : sanitize_filename "  a   b\t\nc  " 200 = "a b c" := by rfl
example : sanitize_filename "abcdef" 3 = "abc" := by rfl
example : sanitize_filename "ab d f" 3 = "ab" := by rfl
example : pyStripS "  x y  " = "x y" := by rfl

/-- The state machine of `re.sub(r'<[^>]+>', '', s)` (the shared
markup-stripping primitive of src/scrape_osgoode.py lines 102, 110, 118 and
143).  In state `some buf` we have read a `<` and buffered (in reverse) the
non-`>` characters after it; reading `>` with a non-empty buffer completes a
match `<[^>]+>` which is deleted, while `<>` (empty buffer) and an
unterminated `<...` are not matches and are emitted verbatim. -/
def stripTagsAux : Option (List Char) → List Char → List Char
  | none, [] => []
  | some buf, [] => '<' :: buf.reverse
  | none, c :: cs =>
    if c = '<' then stripTagsAux (some []) cs else c :: stripTagsAux none cs
  | some buf, c :: cs =>
    if c = '>' then
      if buf.isEmpty then '<' :: '>' :: stripTagsAux none cs
      else stripTagsAux none cs
    else stripTagsAux (some (c :: buf)) cs

/-- `re.sub(r'<[^>]+>', '', s)`: delete every (leftmost, non-overlapping)
occurrence of `<`, one or more non-`>` characters, `>`. -/
def stripTagsL (l : List Char) : List Char :=
  stripTagsAux none l

/-- `re.sub(r'<[^>]+>', '', m.group(1)).strip()`, the value normalization
applied to every captured span in src/scrape_osgoode.py. -/
def stripTrimL (l : List Char) : List Char :=
  pyStripL (stripTagsL l)

example : stripTagsL "a<b>c".data = "ac".data := by rfl
example : stripTagsL "a<>b".data = "a<>b".data := by rfl
example : stripTagsL "a<b".data = "a<b".data := by rfl
example : stripTagsL "a<<b>c".data = "ac".data := by rfl
example : stripTrimL " <p>x y</p> ".data = "x y".data := by rfl

/-- Match a literal pattern at the start of the input; on success return
the remainder of the input after the pattern. -/
def dropLit? : List Char → List Char → Option (List Char)
  | [], l => some l
  | _ :: _, [] => none
  | p :: ps, c :: cs => if c = p then dropLit? ps cs else none

/-- Case-insensitive variant of `dropLit?`, for patterns compiled with
`re.IGNORECASE` (the `extract_bold` helper of src/scrape_osgoode.py). -/
def dropLitCI? : List Char → List Char → Option (List Char)
  | [], l => some l
  | _ :: _, [] => none
  | p :: ps, c :: cs => if c.toLower = p.toLower then dropLitCI? ps cs else none

/-- Does `pat` occur as a contiguous substring of the input?  Used to state
"the label is absent from the blob". -/
def occursIn (pat : List Char) : List Char → Bool
  | [] => (dropLit? pat []).isSome
  | c :: cs => (dropLit? pat (c :: cs)).isSome || occursIn pat cs

/-- The lazy group `(.*?)` (with `re.DOTALL`) followed by a terminator:
capture the shortest prefix after which `term` holds; `none` when no such
split exists. -/
def lazyCapture (term : List Char → Bool) : List Char → Option (List Char)
  | [] => if term [] then some [] else none
  | c :: cs =>
    if term (c :: cs) then some []
    else (lazyCapture term cs).map (fun g => c :: g)

/-- `re.search` position scan: try `matchAt` at every start position from
the left and return the first capture. -/
def searchCapture (matchAt : List Char → Option (List Char)) :
    List Char → Option (List Char)
  | [] => matchAt []
  | c :: cs =>
    match matchAt (c :: cs) with
    | some g => some g
    | none => searchCapture matchAt cs

/-- Match `lit1` then `\s*` then `lit2` at the current position and capture
the lazy group that follows, up to `term`.  This is the shape of the
bounded-span patterns of src/scrape_osgoode.py lines 97-118: since no
whitespace character can start `lit2` (which begins with `<`), the greedy
`\s*` is deterministic. -/
def spanAt (lit1 lit2 : List Char) (term : List Char → Bool)
    (l : List Char) : Option (List Char) :=
  (dropLit? lit1 l).bind fun r1 =>
    (dropLit? lit2 (r1.dropWhile pySpace)).bind (lazyCapture term)

/-- `re.search` for a bounded-span pattern over the whole blob. -/
def spanSearch (lit1 lit2 : List Char) (term : List Char → Bool)
    (l : List Char) : Option (List Char) :=
  searchCapture (spanAt lit1 lit2 term) l

/-- Lookahead `(?=<p><strong>|</p>\s*<p><strong>)` of the primary
description pattern (src/scrape_osgoode.py line 98). -/
def descTerm1 (l : List Char) : Bool :=
  (dropLit? "<p><strong>".data l).isSome ||
  (match dropLit? "</p>".data l with
   | some r => (dropLit? "<p><strong>".data (r.dropWhile pySpace)).isSome
   | none => false)

/-- Lookahead `(?=<strong>Evaluation)` of the fallback description pattern
(src/scrape_osgoode.py line 106). -/
def descTerm2 (l : List Char) : Bool :=
  (dropLit? "<strong>Evaluation".data l).isSome

/-- Lookahead `(?=</p>|</span>)` of the evaluation pattern
(src/scrape_osgoode.py line 114). -/
def evalTerm (l : List Char) : Bool :=
  (dropLit? "</p>".data l).isSome || (dropLit? "</span>".data l).isSome

/-- `re.search(r'<strong>Description:\s*</strong>(.*?)(?=<p><strong>|</p>\s*<p><strong>)', html, re.DOTALL)`. -/
def descPrimary (l : List Char) : Option (List Char) :=
  spanSearch "<strong>Description:".data "</strong>".data descTerm1 l

/-- `re.search(r'<strong>Description:\s*</strong>(.*?)(?=<strong>Evaluation)', html, re.DOTALL)`. -/
def descFallback (l : List Char) : Option (List Char) :=
  spanSearch "<strong>Description:".data "</strong>".data descTerm2 l

/-- `re.search(r'<strong>Evaluation:\s*</strong>(.*?)(?=</p>|</span>)', html, re.DOTALL)`. -/
def evalSearch (l : List Char) : Option (List Char) :=
  spanSearch "<strong>Evaluation:".data "</strong>".data evalTerm l

example :
    descPrimary "<strong>Description: </strong>Text A<p><strong>more".data =
      some "Text A".data := by rfl
example : descPrimary "no label here".data = none := by rfl
example :
    evalSearch "<strong>Evaluation: </strong>Exam</p>".data =
      some "Exam".data := by rfl

/-- Try each candidate remainder (in regex backtracking order) with the
continuation `f`, returning the first success. -/
def tryEach (f : List Char → Option (List Char)) :
    List (List Char) → Option (List Char)
  | [] => none
  | r :: rs =>
    match f r with
    | some g => some g
    | none => tryEach f rs

/-- All remainders after a lazy `.*?` followed by the case-insensitive
literal `pat`, in order of increasing skipped length (the order in which
the regex engine tries them). -/
def lazyThru (pat : List Char) : List Char → List (List Char)
  | [] =>
    match dropLitCI? pat [] with
    | some r => [r]
    | none => []
  | c :: cs =>
    (match dropLitCI? pat (c :: cs) with
     | some r => [r]
     | none => []) ++ lazyThru pat cs

/-- A label of `extract_bold` (src/scrape_osgoode.py lines 139-143) is a
regular expression; a label matcher returns the possible remainders after
the label at the current position, in backtracking order. -/
def plainLabel (pat : List Char) (l : List Char) : List (List Char) :=
  match dropLitCI? pat l with
  | some r => [r]
  | none => []

/-- The label regex `Max\.? Enrollment`: the greedy optional dot is tried
with the dot first. -/
def maxLabel (l : List Char) : List (List Char) :=
  match dropLitCI? "Max".data l with
  | none => []
  | some r =>
    (match (dropLit? ".".data r).bind (fun r2 =>
        dropLitCI? " Enrollment".data r2) with
     | some r3 => [r3]
     | none => []) ++
    (match dropLitCI? " Enrollment".data r with
     | some r3 => [r3]
     | none => [])

/-- The label regex `Upper Year Research.*?Writing Requirement`. -/
def upperYearLabel (l : List Char) : List (List Char) :=
  match dropLitCI? "Upper Year Research".data l with
  | some r => lazyThru "Writing Requirement".data r
  | none => []

/-- The terminator of the bold-value capture: the case-insensitive literal
`</b>`. -/
def boldEnd (l : List Char) : Bool :=
  (dropLitCI? "</b>".data l).isSome

/-- Match the `extract_bold` pattern `rf'{label}:\s*<b>(.*?)</b>'` (with
`re.DOTALL | re.IGNORECASE`) at the current position: a label candidate,
the colon, optional whitespace, `<b>`, then the lazy capture up to `</b>`.
The greedy `\s*` is deterministic because `<` is not whitespace. -/
def boldAt (label : List Char → List (List Char)) (l : List Char) :
    Option (List Char) :=
  tryEach
    (fun r =>
      (dropLit? ":".data r).bind fun r2 =>
        (dropLitCI? "<b>".data (r2.dropWhile pySpace)).bind
          (lazyCapture boldEnd))
    (label l)

/-- `extract_bold(html, label)` of src/scrape_osgoode.py lines 139-143:
search for the label pattern, capture the bold value, strip markup and
trim; the empty string when there is no match. -/
def extract_bold (label : List Char → List (List Char)) (html : List Char) :
    String :=
  match searchCapture (boldAt label) html with
  | some g => String.mk (stripTrimL g)
  | none => ""

example : extract_bold (plainLabel "Credits".data)
    "x Credits: <b>4</b> y".data = "4" := by rfl
example : extract_bold (plainLabel "Credits".data)
    "x CREDITS:<B>4</B> y".data = "4" := by rfl
example : extract_bold (plainLabel "Credits".data) "no label".data = "" := by
  rfl
example : extract_bold maxLabel "Max. Enrollment: <b>20</b>".data = "20" := by
  rfl
example : extract_bold maxLabel "Max Enrollment: <b>20</b>".data = "20" := by
  rfl

/-- `re.search(r'<b>(Fall|Winter|Year)</b>', sidebar_html)`
(src/scrape_osgoode.py line 146): leftmost occurrence, alternatives tried
in order at each position; yields the captured term name. -/
def termSearch : List Char → Option String
  | [] => none
  | c :: cs =>
    if (dropLit? "<b>Fall</b>".data (c :: cs)).isSome then some "Fall"
    else if (dropLit? "<b>Winter</b>".data (c :: cs)).isSome then some "Winter"
    else if (dropLit? "<b>Year</b>".data (c :: cs)).isSome then some "Year"
    else termSearch cs

example : termSearch "a<b>Winter</b>z".data = some "Winter" := by rfl
example : termSearch "a<b>winter</b>z".data = none := by rfl

/-- Python `dict` lookup `d.get(k)` on the association-list model (keys are
unique in every dictionary the scripts build, so leftmost lookup is exact).
-/
def lookupA (k : String) : List (String × α) → Option α
  | [] => none
  | (k', v) :: r => if k' = k then some v else lookupA k r

/-- Python `d[k] = v`: overwrite in place when the key exists, append
otherwise. -/
def setKey (e : List (String × α)) (k : String) (v : α) : List (String × α) :=
  if (lookupA k e).isSome then
    e.map (fun p => if p.1 = k then (k, v) else p)
  else e ++ [(k, v)]

/-- Python `e.update(d)`: keys of `e` keep their position and receive the
value from `d` when present there; keys of `d` new to `e` are appended in
order. -/
def updateAssoc (e d : List (String × α)) : List (String × α) :=
  e.map (fun p =>
    match lookupA p.1 d with
    | some w => (p.1, w)
    | none => p) ++
  d.filter (fun p => (lookupA p.1 e).isNone)

/-- Python truthiness of the `Option String` values returned by the DOM
`evaluate` calls: `None` and the empty string are falsy. -/
def truthy : Option String → Bool
  | none => false
  | some s => !s.isEmpty

/-- The `description` entry produced from the main content region
(src/scrape_osgoode.py lines 96-110): primary pattern, then the broader
fallback; no entry at all when neither matches. -/
def descField (mh : List Char) : List (String × String) :=
  match descPrimary mh with
  | some g => [("description", String.mk (stripTrimL g))]
  | none =>
    match descFallback mh with
    | some g => [("description", String.mk (stripTrimL g))]
    | none => []

/-- The `evaluation` entry produced from the main content region
(src/scrape_osgoode.py lines 112-118); no entry when the pattern has no
match. -/
def evalField (mh : List Char) : List (String × String) :=
  match evalSearch mh with
  | some g => [("evaluation", String.mk (stripTrimL g))]
  | none => []

/-- `main_text.strip() if main_text else ""` (src/scrape_osgoode.py
line 127). -/
def fullPageText (mt : Option String) : String :=
  if truthy mt then pyStripS (mt.getD "") else ""

/-- The sidebar entries (src/scrape_osgoode.py lines 145-157).  `term` is
initialized to the empty string and overwritten when the term pattern
matches, so its net value is a single entry. -/
def sidebarFields (sh : List Char) : List (String × String) :=
  [("term", (termSearch sh).getD ""),
   ("sidebar_credits", extract_bold (plainLabel "Credits".data) sh),
   ("sidebar_hours", extract_bold (plainLabel "Hours".data) sh),
   ("max_enrollment", extract_bold maxLabel sh),
   ("prerequisite_courses",
     extract_bold (plainLabel "Prerequisite Courses".data) sh),
   ("preferred_courses",
     extract_bold (plainLabel "Preferred Courses".data) sh),
   ("presentation", extract_bold (plainLabel "Presentation".data) sh),
   ("upper_year_writing", extract_bold upperYearLabel sh),
   ("praxicum_detail", extract_bold (plainLabel "Praxicum".data) sh)]

/-- The outcome of each awaited page operation inside the try-block of
`scrape_description_page` (src/scrape_osgoode.py lines 82-157): the
navigation `goto`, the two `evaluate` calls on the main region and the one
on the sidebar region.  Each either returns (`ok`) or raises with a message
(`error`), which is exactly what the single `except Exception` observes. -/
structure PageOps where
  goto : Except String Unit
  mainHtml : Except String (Option String)
  mainText : Except String (Option String)
  sidebarHtml : Except String (Option String)

/-- The sidebar phase of `scrape_description_page` (src/scrape_osgoode.py
lines 129-157), given the entries accumulated so far. -/
def sidebarStep (d : List (String × String)) (ops : PageOps) :
    List (String × String) :=
  match ops.sidebarHtml with
  | .error e => d ++ [("error", e)]
  | .ok sh => if truthy sh then d ++ sidebarFields (sh.getD "").data else d

/-- `scrape_description_page` of src/scrape_osgoode.py lines 77-163: the
`data` dictionary it returns, as a function of the page-operation
outcomes.  An exception raised by any executed operation lands in the
single except-block, which records `data["error"]` and the function
returns normally; the `main_text` evaluate runs only when `main_html` is
truthy, mirroring the nesting of the source. -/
def scrape_description_page (ops : PageOps) : List (String × String) :=
  match ops.goto with
  | .error e => [("error", e)]
  | .ok _ =>
    match ops.mainHtml with
    | .error e => [("error", e)]
    | .ok mh =>
      if truthy mh then
        let d := descField (mh.getD "").data ++ evalField (mh.getD "").data
        match ops.mainText with
        | .error e => d ++ [("error", e)]
        | .ok mt => sidebarStep (d ++ [("full_page_text", fullPageText mt)]) ops
      else sidebarStep [] ops

/-- The first exception raised by the operations `scrape_description_page`
actually executes, in program order; `none` when the try-block completes. -/
def pageFirstError (ops : PageOps) : Option String :=
  match ops.goto with
  | .error e => some e
  | .ok _ =>
    match ops.mainHtml with
    | .error e => some e
    | .ok mh =>
      if truthy mh then
        match ops.mainText with
        | .error e => some e
        | .ok _ =>
          match ops.sidebarHtml with
          | .error e => some e
          | .ok _ => none
      else
        match ops.sidebarHtml with
        | .error e => some e
        | .ok _ => none

example : scrape_description_page
    { goto := .error "Timeout 30000ms exceeded", mainHtml := .ok none,
      mainText := .ok none, sidebarHtml := .ok none } =
    [("error", "Timeout 30000ms exceeded")] := by rfl

/-- A table row as the two scripts see it: the result of the detail-link
query (`query_selector` for the tab-specific href pattern, giving the link
text and the `href` attribute when a matching anchor exists) and the
`inner_text` of each `td` cell. -/
structure Row where
  link : Option (String × String)
  cells : List String

/-- The entry dictionary literal of src/scrape_osgoode.py lines 58-72;
`cs.getD i ""` is `cell_texts[i] if len(cell_texts) > i else ""`. -/
def mkOsgoodeEntry (t href : String) (cs : List String) :
    List (String × String) :=
  [("title", t), ("href", href),
   ("instructor", cs.getD 1 ""), ("section", cs.getD 2 ""),
   ("hours", cs.getD 3 ""), ("catalogue", cs.getD 4 ""),
   ("number", cs.getD 5 ""), ("credits", cs.getD 6 ""),
   ("initial_demand", cs.getD 7 ""), ("max", cs.getD 8 ""),
   ("final", cs.getD 9 ""), ("writing_requirement", cs.getD 10 ""),
   ("praxicum", cs.getD 11 "")]

/-- The per-row body of `scrape_links_from_table` (src/scrape_osgoode.py
lines 42-72): skip rows without a `syldescription.xsp` link, skip rows with
fewer than 12 cells, otherwise build the entry dictionary with trimmed
texts and positional cell fields. -/
def osgoodeRow? (r : Row) : Option (List (String × String)) :=
  match r.link with
  | none => none
  | some (t, href) =>
    if r.cells.length < 12 then none
    else
      some (mkOsgoodeEntry (pyStripS t) href (r.cells.map pyStripS))

/-- `scrape_links_from_table` of src/scrape_osgoode.py lines 37-74. -/
def scrape_links_from_table (rows : List Row) : List (List (String × String)) :=
  rows.filterMap osgoodeRow?

/-- Values of the outlines entry dictionaries: the row fields are strings,
`pdf_paths` is a list of saved paths. -/
inductive Val where
  | vStr : String → Val
  | vList : List String → Val
deriving DecidableEq, Repr

/-- The entry dictionary literal of src/scrape_outlines.py lines 84-92. -/
def mkOutlinesEntry (t href : String) (cs : List String) :
    List (String × Val) :=
  [("title", .vStr t), ("href", .vStr href),
   ("course_number", .vStr (cs.getD 1 "")),
   ("section", .vStr (cs.getD 2 "")),
   ("title_variance", .vStr (cs.getD 3 "")),
   ("term", .vStr (cs.getD 4 "")),
   ("professor", .vStr (cs.getD 5 ""))]

/-- The per-row body of `scrape_course_links` (src/scrape_outlines.py
lines 71-92): skip rows without an `/outlines2526.nsf/Courses/` link;
there is no minimum cell count check in this script. -/
def outlinesRow? (r : Row) : Option (List (String × Val)) :=
  match r.link with
  | none => none
  | some (t, href) =>
    some (mkOutlinesEntry (pyStripS t) href (r.cells.map pyStripS))

/-- `scrape_course_links` of src/scrape_outlines.py lines 62-94. -/
def scrape_course_links (rows : List Row) : List (List (String × Val)) :=
  rows.filterMap outlinesRow?

/-- Python `s.lower().endswith(pat)` for a lowercase literal `pat`. -/
def lowerEndsWith (pat : List Char) (s : String) : Bool :=
  pat.isSuffixOf (s.data.map Char.toLower)

/-- The filename choice of src/scrape_outlines.py lines 147-154: the
suggested link text when it is truthy and has a document extension,
otherwise the sanitized entry title with `.pdf` appended (`max_len` is the
Python default 200). -/
def pdfFileName (title name : String) : String :=
  if !name.isEmpty &&
      (lowerEndsWith ".pdf".data name || lowerEndsWith ".docx".data name ||
       lowerEndsWith ".doc".data name) then
    sanitize_filename name 200
  else
    sanitize_filename title 200 ++ ".pdf"

/-- Outcome of handling one PDF link inside the download loop
(src/scrape_outlines.py lines 132-158): the `context.request.get`, the
body read or the `write_bytes` raises; or the response is not ok (skipped
with `continue`); or the file is fetched and written. -/
inductive LinkRes where
  | raises : String → LinkRes
  | httpFail : Nat → LinkRes
  | ok : LinkRes

/-- The outcomes of the operations `download_pdf_from_course_page`
(src/scrape_outlines.py lines 97-163) awaits inside its try-block: the
navigation, the link-collecting `evaluate`, and one outcome per collected
link (indexed by position in the deduplicated link list the `evaluate`
returned; each link is a pair of href and trimmed link text). -/
structure PdfOps where
  goto : Except String Unit
  links : Except String (List (String × String))
  fetch : Nat → LinkRes

/-- The `for link_info in pdf_links` loop of src/scrape_outlines.py lines
132-158, accumulating `saved`.  An exception on a link aborts the loop and
(through the except-block, which only prints) yields the paths saved so
far; a non-ok response skips the link. -/
def downloadLoop (dest_dir title : String) (fetch : Nat → LinkRes) :
    Nat → List (String × String) → List String → List String
  | _, [], acc => acc
  | i, (_, name) :: rest, acc =>
    match fetch i with
    | .raises _ => acc
    | .httpFail _ => downloadLoop dest_dir title fetch (i + 1) rest acc
    | .ok =>
      downloadLoop dest_dir title fetch (i + 1) rest
        (acc ++ [dest_dir ++ "/" ++ pdfFileName title name])

/-- `download_pdf_from_course_page` of src/scrape_outlines.py lines
97-163: returns the list of saved file paths; every exception is caught by
the enclosing try-block, which prints the error and falls through to
`return saved` - no error is recorded anywhere.  `title` is
`entry["title"]`, used for the fallback filename. -/
def download_pdf_from_course_page (dest_dir title : String) (ops : PdfOps) :
    List String :=
  match ops.goto with
  | .error _ => []
  | .ok _ =>
    match ops.links with
    | .error _ => []
    | .ok ls => downloadLoop dest_dir title ops.fetch 0 ls []

/-- First exception inside the download loop, scanning links in order. -/
def loopFirstError (fetch : Nat → LinkRes) :
    Nat → List (String × String) → Option String
  | _, [] => none
  | i, _ :: rest =>
    match fetch i with
    | .raises e => some e
    | _ => loopFirstError fetch (i + 1) rest

/-- The first exception raised by the operations
`download_pdf_from_course_page` actually executes; `none` when the
try-block completes. -/
def pdfFirstError (ops : PdfOps) : Option String :=
  match ops.goto with
  | .error e => some e
  | .ok _ =>
    match ops.links with
    | .error e => some e
    | .ok ls => loopFirstError ops.fetch 0 ls

/-- The per-row step of the osgoode orchestrator (src/scrape_osgoode.py
lines 199-202): fetch the detail page for the row's behaviour and merge
the returned dictionary into the entry with `entry.update(detail)`. -/
def processOsgoodeRow (e : List (String × String)) (ops : PageOps) :
    List (String × String) :=
  updateAssoc e (scrape_description_page ops)

/-- The per-tab detail loop of the osgoode orchestrator: one page-operation
record per listed entry, every entry processed in order. -/
def processOsgoodeTab (rows : List (List (String × String) × PageOps)) :
    List (List (String × String)) :=
  rows.map fun p => processOsgoodeRow p.1 p.2

/-- The per-row step of the outlines orchestrator (src/scrape_outlines.py
lines 205-224): download the PDFs for the row and record the saved paths
under `pdf_paths` (an empty list when nothing was saved); the entry is
appended to the tab results either way. -/
def processOutlinesRow (dest_dir : String) (e : List (String × Val))
    (ops : PdfOps) : List (String × Val) :=
  setKey e "pdf_paths"
    (.vList (download_pdf_from_course_page dest_dir
      (match lookupA "title" e with
       | some (.vStr t) => t
       | _ => "") ops))

/-- The per-tab detail loop of the outlines orchestrator. -/
def processOutlinesTab (dest_dir : String)
    (rows : List (List (String × Val) × PdfOps)) : List (List (String × Val)) :=
  rows.map fun p => processOutlinesRow dest_dir p.1 p.2

/-- Tab Navigator invocations as observable events: `enter` is a tab
activation (the `page.evaluate` click of src/scrape_osgoode.py lines 191
and 207, or `click_tab` of src/scrape_outlines.py lines 197 and 229),
`visit` is a detail-page visit. -/
inductive NavEvent where
  | enter : NavEvent
  | visit : NavEvent
deriving DecidableEq, Repr

/-- The navigation events of the per-row loop: each row produces a detail
visit followed by a re-activation of the tab (src/scrape_osgoode.py lines
199-208, src/scrape_outlines.py lines 205-229). -/
def rowLoopTrace : Nat → List NavEvent
  | 0 => []
  | n + 1 => .visit :: .enter :: rowLoopTrace n

/-- The full Tab Navigator trace of one tab with `n` data rows: the
initial activation, then the per-row loop. -/
def tabTrace (n : Nat) : List NavEvent :=
  .enter :: rowLoopTrace n

/-- Number of re-entries in a trace: tab activations occurring immediately
after a detail visit. -/
def reEntries : List NavEvent → Nat
  | [] => 0
  | [_] => 0
  | a :: b :: rest =>
    (if a = NavEvent.visit ∧ b = NavEvent.enter then 1 else 0) +
      reEntries (b :: rest)

/-- Total number of entries of a crawl result (`sum(len(v) for v in
all_courses.values())`, src/scrape_osgoode.py line 217). -/
def totalCount (res : List (String × List (List (String × String)))) : Nat :=
  (res.map fun p => p.2.length).sum

/-- Number of entries whose dictionary carries an `error` key. -/
def errorCount (res : List (String × List (List (String × String)))) : Nat :=
  (res.map fun p => (p.2.filter fun e => (lookupA "error" e).isSome).length).sum

/-- The final user-visible summary line of src/scrape_osgoode.py line 218. -/
def summaryOsgoode (res : List (String × List (List (String × String)))) :
    String :=
  "Saved " ++ toString (totalCount res) ++
    " entries to DATA/osgoode_course_descriptions.json"

/-- Total number of entries of an outlines crawl result
(src/scrape_outlines.py line 239). -/
def totalCountO (res : List (String × List (List (String × Val)))) : Nat :=
  (res.map fun p => p.2.length).sum

/-- Python truthiness of an optional entry value (`e.get("pdf_paths")`). -/
def valTruthy : Option Val → Bool
  | none => false
  | some (.vStr s) => !s.isEmpty
  | some (.vList l) => !l.isEmpty

/-- `downloaded` of src/scrape_outlines.py lines 240-243: entries whose
`pdf_paths` value is truthy. -/
def downloadedCount (res : List (String × List (List (String × Val)))) : Nat :=
  (res.map fun p =>
    (p.2.filter fun e => valTruthy (lookupA "pdf_paths" e)).length).sum

/-- The final user-visible summary line of src/scrape_outlines.py
line 245. -/
def summaryOutlines (res : List (String × List (List (String × Val)))) :
    String :=
  toString (downloadedCount res) ++ "/" ++ toString (totalCountO res) ++
    " courses had PDFs downloaded"

/-- A decomposition of a markup blob into alternating text pieces and
tags, used to state that tag stripping preserves all text between tags. -/
inductive Chunk where
  | txt : List Char → Chunk
  | tag : List Char → Chunk

/-- Render a chunk back to raw markup: a tag body `s` renders as `<s>`. -/
def renderChunk : Chunk → List Char
  | .txt s => s
  | .tag s => '<' :: s ++ ['>']

/-- The content of a chunk: text pieces themselves, tags nothing. -/
def chunkText : Chunk → List Char
  | .txt s => s
  | .tag _ => []

/-- Well-formedness of a chunk decomposition: text pieces contain no `<`
(in HTML a literal `<` in content is escaped), tag bodies are non-empty
and contain no `>`, matching the regex `<[^>]+>`. -/
def wfChunk : Chunk → Prop
  | .txt s => ¬ '<' ∈ s
  | .tag s => s ≠ [] ∧ ¬ '>' ∈ s

instance : DecidablePred wfChunk
  | .txt s => inferInstanceAs (Decidable (¬ '<' ∈ s))
  | .tag s => inferInstanceAs (Decidable (s ≠ [] ∧ ¬ '>' ∈ s))

/-- Specification predicate: the first character, if any, is not
whitespace. -/
def headNoSpace : List Char → Bool
  | [] => true
  | c :: _ => !pySpace c

/-- Specification predicate: every whitespace character of the list is a
plain space. -/
def spacesBlank (l : List Char) : Prop :=
  ∀ c ∈ l, pySpace c = true → c = ' '

/-- Specification relation: two adjacent characters are not both
whitespace. -/
def sepR (a b : Char) : Prop :=
  ¬(pySpace a = true ∧ pySpace b = true)

/-- Specification predicate: no two adjacent whitespace characters. -/
def noTwo (l : List Char) : Prop :=
  List.Chain' sepR l

/-- The keys of the sidebar portion of the detail dictionary
(src/scrape_osgoode.py lines 145-157). -/
def sidebarKeys : List String :=
  ["term", "sidebar_credits", "sidebar_hours", "max_enrollment",
   "prerequisite_courses", "preferred_courses", "presentation",
   "upper_year_writing", "praxicum_detail"]

/-- Every key `scrape_description_page` can ever put into its `data`
dictionary (src/scrape_osgoode.py lines 77-163). -/
def detailKeys : List String :=
  ["description", "evaluation", "full_page_text", "term", "sidebar_credits",
   "sidebar_hours", "max_enrollment", "prerequisite_courses",
   "preferred_courses", "presentation", "upper_year_writing",
   "praxicum_detail", "error"]

/-- The keys of the row entry dictionary of `scrape_links_from_table`
(src/scrape_osgoode.py lines 58-72). -/
def osgoodeRowKeys : List String :=
  ["title", "href", "instructor", "section", "hours", "catalogue", "number",
   "credits", "initial_demand", "max", "final", "writing_requirement",
   "praxicum"]

/-! ## Helper lemmas -/

lemma reEntries_enter_rowLoop (n : Nat) :
    reEntries (NavEvent.enter :: rowLoopTrace n) = reEntries (rowLoopTrace n) := by
  cases n <;> simp [rowLoopTrace, reEntries]

lemma reEntries_rowLoop (n : Nat) : reEntries (rowLoopTrace n) = n := by
  induction n with
  | zero => simp [rowLoopTrace, reEntries]
  | succ m ih =>
    have h1 : reEntries (rowLoopTrace (m + 1)) =
        1 + reEntries (NavEvent.enter :: rowLoopTrace m) := by
      simp [rowLoopTrace, reEntries]
    rw [h1, reEntries_enter_rowLoop, ih]
    omega

/-! ## C6: the orchestrator re-activates the tab after every detail visit -/

/-- C6: for every tab with `n` data rows the Tab Navigator trace is the
initial activation followed by a visit/re-activation pair per row, the
number of re-entries (activations immediately after a visit) equals the
number of rows, and the 3-row trace begins
`ENTER, VISIT, ENTER, VISIT, ENTER, VISIT`. -/
theorem C6_trace_reentry_per_row :
    (∀ n : Nat, reEntries (tabTrace n) = n) ∧
    [NavEvent.enter, NavEvent.visit, NavEvent.enter, NavEvent.visit,
      NavEvent.enter, NavEvent.visit] <+: tabTrace 3 := by
  constructor
  · intro n
    have h := reEntries_enter_rowLoop n
    simpa [tabTrace, reEntries_rowLoop] using h
  · exact ⟨[NavEvent.enter], by rfl⟩

/-- C6 witness: the general part of `C6_trace_reentry_per_row`
instantiated at a 3-row tab. -/
theorem C6_witness : reEntries (tabTrace 3) = 3 :=
  C6_trace_reentry_per_row.1 3

/-! ## C4: minimum cell count -/

/-- C4 counterexample: a row with a detail link and only 5 cells (below
the 12-cell threshold of the claim) is NOT skipped by the outlines Row
Parser - it yields a RowSummary. -/
theorem C4_counterexample :
    scrape_course_links
      [{ link := some ("Contracts", "/outlines2526.nsf/Courses/abc"),
         cells := ["Contracts", "2010", "A", "", "Fall"] }] =
      [mkOutlinesEntry "Contracts" "/outlines2526.nsf/Courses/abc"
        ["Contracts", "2010", "A", "", "Fall"]] ∧
    (scrape_course_links
      [{ link := some ("Contracts", "/outlines2526.nsf/Courses/abc"),
         cells := ["Contracts", "2010", "A", "", "Fall"] }]).length = 1 := by
  constructor <;> rfl

/-- C4 amended: only the osgoode Row Parser enforces a minimum cell count
(12); the outlines Row Parser yields a RowSummary for every row with a
detail link, whatever its cell count; rows without a detail link are
discarded by both, and neither raises (both are total functions). -/
theorem C4_amended :
    (∀ r : Row, r.cells.length < 12 → osgoodeRow? r = none) ∧
    (∀ (r : Row) (t h : String), r.link = some (t, h) →
      outlinesRow? r = some (mkOutlinesEntry (pyStripS t) h
        (r.cells.map pyStripS))) ∧
    (∀ r : Row, r.link = none → osgoodeRow? r = none ∧ outlinesRow? r = none) := by
  refine ⟨fun r hlen => ?_, fun r t h hl => ?_, fun r hl => ?_⟩
  · unfold osgoodeRow?
    cases hr : r.link with
    | none => rfl
    | some p =>
      obtain ⟨t, href⟩ := p
      simp [if_pos hlen]
  · unfold outlinesRow?
    rw [hl]
  · unfold osgoodeRow? outlinesRow?
    rw [hl]
    exact ⟨rfl, rfl⟩

/-- C4 witness: the amended theorem at a 5-cell row with a detail link. -/
theorem C4_witness :
    osgoodeRow? { link := some ("T", "h"), cells := ["a", "b", "c", "d", "e"] }
      = none ∧
    outlinesRow? { link := some ("T", "h"), cells := ["a", "b", "c", "d", "e"] }
      = some (mkOutlinesEntry "T" "h" ["a", "b", "c", "d", "e"]) := by
  constructor
  · exact C4_amended.1 _ (by decide)
  · have h := C4_amended.2.1
      { link := some ("T", "h"), cells := ["a", "b", "c", "d", "e"] } "T" "h" rfl
    simpa using h

/-! ## C8: positional fields beyond the cell count -/

/-- C8: in both entry builders, a positional field whose cell index is
beyond the row's actual cell count is the empty string (the
`cell_texts[i] if len(cell_texts) > i else ""` guard); the access is
total, never out-of-range.  Stated for every field of both scripts,
grouped by cell index (1-5 exist in both, 6-11 only in the osgoode
script). -/
theorem C8_index_beyond_cells_empty (t h : String) (cells : List String) :
    (cells.length ≤ 1 →
      lookupA "instructor" (mkOsgoodeEntry t h cells) = some "" ∧
      lookupA "course_number" (mkOutlinesEntry t h cells) = some (Val.vStr "")) ∧
    (cells.length ≤ 2 →
      lookupA "section" (mkOsgoodeEntry t h cells) = some "" ∧
      lookupA "section" (mkOutlinesEntry t h cells) = some (Val.vStr "")) ∧
    (cells.length ≤ 3 →
      lookupA "hours" (mkOsgoodeEntry t h cells) = some "" ∧
      lookupA "title_variance" (mkOutlinesEntry t h cells) = some (Val.vStr "")) ∧
    (cells.length ≤ 4 →
      lookupA "catalogue" (mkOsgoodeEntry t h cells) = some "" ∧
      lookupA "term" (mkOutlinesEntry t h cells) = some (Val.vStr "")) ∧
    (cells.length ≤ 5 →
      lookupA "number" (mkOsgoodeEntry t h cells) = some "" ∧
      lookupA "professor" (mkOutlinesEntry t h cells) = some (Val.vStr "")) ∧
    (cells.length ≤ 6 →
      lookupA "credits" (mkOsgoodeEntry t h cells) = some "") ∧
    (cells.length ≤ 7 →
      lookupA "initial_demand" (mkOsgoodeEntry t h cells) = some "") ∧
    (cells.length ≤ 8 →
      lookupA "max" (mkOsgoodeEntry t h cells) = some "") ∧
    (cells.length ≤ 9 →
      lookupA "final" (mkOsgoodeEntry t h cells) = some "") ∧
    (cells.length ≤ 10 →
      lookupA "writing_requirement" (mkOsgoodeEntry t h cells) = some "") ∧
    (cells.length ≤ 11 →
      lookupA "praxicum" (mkOsgoodeEntry t h cells) = some "") := by
  refine ⟨fun hl => ⟨?_, ?_⟩, fun hl => ⟨?_, ?_⟩, fun hl => ⟨?_, ?_⟩,
    fun hl => ⟨?_, ?_⟩, fun hl => ⟨?_, ?_⟩, fun hl => ?_, fun hl => ?_,
    fun hl => ?_, fun hl => ?_, fun hl => ?_, fun hl => ?_⟩ <;>
  simp [mkOsgoodeEntry, mkOutlinesEntry, lookupA, List.getElem?_eq_none hl]

/-- C8 witness: the theorem at a concrete 1-cell row, where every
positional index is out of range. -/
theorem C8_witness :
    lookupA "instructor" (mkOsgoodeEntry "T" "h" ["only"]) = some "" ∧
    lookupA "course_number" (mkOutlinesEntry "T" "h" ["only"])
      = some (Val.vStr "") :=
  (C8_index_beyond_cells_empty "T" "h" ["only"]).1 (by decide)

/-! ## C5: tag stripping preserves text between tags -/

lemma stripTagsAux_txt (t rest : List Char) (ht : ¬ '<' ∈ t) :
    stripTagsAux none (t ++ rest) = t ++ stripTagsAux none rest := by
  induction t with
  | nil => rfl
  | cons c t' ih =>
    have hc : ¬ c = '<' := fun h => ht (h ▸ List.mem_cons_self c t')
    have ht' : ¬ '<' ∈ t' := fun h => ht (List.mem_cons_of_mem c h)
    simp only [List.cons_append, stripTagsAux, if_neg hc]
    exact congrArg (fun l => c :: l) (ih ht')

lemma stripTagsAux_buf (s : List Char) :
    ∀ (buf rest : List Char), ¬ '>' ∈ s → (buf ≠ [] ∨ s ≠ []) →
      stripTagsAux (some buf) (s ++ '>' :: rest) = stripTagsAux none rest := by
  induction s with
  | nil =>
    intro buf rest _ hne
    have hb : buf ≠ [] := by
      rcases hne with h | h
      · exact h
      · exact absurd rfl h
    have : buf.isEmpty = false := by
      cases buf with
      | nil => exact absurd rfl hb
      | cons a l => rfl
    simp [stripTagsAux, this]
  | cons c s' ih =>
    intro buf rest hs _
    have hc : ¬ c = '>' := fun h => hs (h ▸ List.mem_cons_self c s')
    have hs' : ¬ '>' ∈ s' := fun h => hs (List.mem_cons_of_mem c h)
    simp only [List.cons_append, stripTagsAux, if_neg hc]
    exact ih (c :: buf) rest hs' (Or.inl (List.cons_ne_nil c buf))

lemma stripTagsAux_tag (s rest : List Char) (hne : s ≠ []) (hs : ¬ '>' ∈ s) :
    stripTagsAux none ('<' :: (s ++ '>' :: rest)) = stripTagsAux none rest := by
  simp only [stripTagsAux, if_pos rfl]
  exact stripTagsAux_buf s [] rest hs (Or.inr hne)

lemma stripTags_chunks (ps : List Chunk) (hwf : ∀ c ∈ ps, wfChunk c) :
    stripTagsL ((ps.map renderChunk).flatten) = (ps.map chunkText).flatten := by
  induction ps with
  | nil => rfl
  | cons c ps' ih =>
    have hc := hwf c (List.mem_cons_self c ps')
    have hps' : ∀ x ∈ ps', wfChunk x := fun x hx =>
      hwf x (List.mem_cons_of_mem c hx)
    cases c with
    | txt s =>
      simp only [List.map_cons, List.flatten_cons, renderChunk, chunkText]
      rw [stripTagsL] at ih ⊢
      rw [stripTagsAux_txt s _ hc, ih hps']
    | tag s =>
      obtain ⟨hne, hs⟩ := hc
      simp only [List.map_cons, List.flatten_cons, renderChunk, chunkText,
        List.nil_append]
      rw [stripTagsL] at ih ⊢
      simp only [List.append_assoc, List.singleton_append, List.cons_append,
        List.nil_append]
      rw [stripTagsAux_tag s _ hne hs, ih hps']

/-- C5 counterexample: stripping the claim's own example blob and trimming
yields `Description: Intro to X.` - the label text survives tag stripping
- not the claimed `Intro to X.`. -/
theorem C5_counterexample :
    String.mk (stripTrimL "<strong>Description: </strong>Intro to X.<p>".data)
        = "Description: Intro to X." ∧
    String.mk (stripTrimL "<strong>Description: </strong>Intro to X.<p>".data)
        ≠ "Intro to X." := by
  exact ⟨by rfl, by decide⟩

/-- C5 amended: the tag-stripping step removes exactly the `<[^>]+>`
spans and preserves all text between tags (for any well-formed
decomposition into text pieces and tags, stripping the rendered blob
returns the concatenated text pieces); on the claim's example blob,
stripping and trimming yields `Description: Intro to X.` (the value
`Intro to X.` only arises after the bounded-span rule has first removed
the label). -/
theorem C5_strip_preserves_text :
    (∀ ps : List Chunk, (∀ c ∈ ps, wfChunk c) →
      stripTagsL ((ps.map renderChunk).flatten) = (ps.map chunkText).flatten) ∧
    String.mk (stripTrimL "<strong>Description: </strong>Intro to X.<p>".data)
      = "Description: Intro to X." :=
  ⟨stripTags_chunks, by rfl⟩

/-- C5 witness: the amended theorem at the example blob's decomposition. -/
theorem C5_witness :
    stripTagsL (([Chunk.tag "strong".data, Chunk.txt "Description: ".data,
        Chunk.tag "/strong".data, Chunk.txt "Intro to X.".data,
        Chunk.tag "p".data].map renderChunk).flatten) =
      ([Chunk.tag "strong".data, Chunk.txt "Description: ".data,
        Chunk.tag "/strong".data, Chunk.txt "Intro to X.".data,
        Chunk.tag "p".data].map chunkText).flatten :=
  C5_strip_preserves_text.1 _ (by decide)

/-! ## C7: sanitize_filename replaces illegal characters and caps length -/

lemma pyStripL_subset (l : List Char) : ∀ c ∈ pyStripL l, c ∈ l := by
  intro c h
  unfold pyStripL at h
  have h1 := (List.dropWhile_suffix pySpace).subset (List.mem_reverse.mp h)
  exact (List.dropWhile_suffix pySpace).subset (List.mem_reverse.mp h1)

lemma pyRstripL_subset (l : List Char) : ∀ c ∈ pyRstripL l, c ∈ l := by
  intro c h
  unfold pyRstripL at h
  exact List.mem_reverse.mp
    ((List.dropWhile_suffix pySpace).subset (List.mem_reverse.mp h))

lemma mem_collapseAux {c : Char} :
    ∀ (b : Bool) (l : List Char), c ∈ collapseAux b l → c = ' ' ∨ c ∈ l := by
  intro b l
  induction l generalizing b with
  | nil => intro h; exact absurd h (List.not_mem_nil c)
  | cons x xs ih =>
    intro h
    unfold collapseAux at h
    by_cases hx : pySpace x
    · rw [if_pos hx] at h
      cases b with
      | true =>
        rcases ih true h with h' | h'
        · exact Or.inl h'
        · exact Or.inr (List.mem_cons_of_mem x h')
      | false =>
        rcases List.mem_cons.mp h with h' | h'
        · exact Or.inl h'
        · rcases ih true h' with h'' | h''
          · exact Or.inl h''
          · exact Or.inr (List.mem_cons_of_mem x h'')
    · rw [if_neg hx] at h
      rcases List.mem_cons.mp h with h' | h'
      · exact Or.inr (h' ▸ List.mem_cons_self x xs)
      · rcases ih false h' with h'' | h''
        · exact Or.inl h''
        · exact Or.inr (List.mem_cons_of_mem x h'')

lemma mem_sanitizeCore_not_illegal {c : Char} {l : List Char}
    (h : c ∈ sanitizeCore l) : illegalChar c = false := by
  unfold sanitizeCore at h
  have h1 := pyStripL_subset _ c h
  rcases mem_collapseAux false _ h1 with h2 | h2
  · rw [h2]; rfl
  · rcases List.mem_map.mp h2 with ⟨x, _, hx⟩
    by_cases hi : illegalChar x
    · rw [if_pos hi] at hx; rw [← hx]; rfl
    · rw [if_neg hi] at hx; rw [← hx]
      exact Bool.not_eq_true _ ▸ (by simpa using hi)

lemma sanitizeL_subset_core (l : List Char) (n : Nat) :
    ∀ c ∈ sanitizeL l n, c ∈ sanitizeCore l := by
  intro c h
  unfold sanitizeL at h
  split at h
  · exact (List.take_prefix n (sanitizeCore l)).subset (pyRstripL_subset _ c h)
  · exact h

lemma sanitizeL_length_le (l : List Char) (n : Nat) :
    (sanitizeL l n).length ≤ n := by
  unfold sanitizeL
  split
  · have h3 : ((sanitizeCore l).take n).reverse.dropWhile pySpace <:+
        ((sanitizeCore l).take n).reverse := List.dropWhile_suffix pySpace
    have h1 : (pyRstripL ((sanitizeCore l).take n)).length ≤
        ((sanitizeCore l).take n).length := by
      unfold pyRstripL
      rw [List.length_reverse]
      have h4 := h3.length_le
      rw [List.length_reverse] at h4
      exact h4
    have h2 : ((sanitizeCore l).take n).length ≤ n := List.length_take_le n _
    omega
  · omega

/-- C7: for every input string and every cap, `sanitize_filename` returns
(it is a total function) a string of length at most the cap in which no
illegal filesystem character occurs (each was replaced by an
underscore). -/
theorem C7_sanitize_filename_safe (name : String) (max_len : Nat) :
    (sanitize_filename name max_len).length ≤ max_len ∧
    ∀ c ∈ (sanitize_filename name max_len).data, illegalChar c = false := by
  constructor
  · show (String.mk (sanitizeL name.data max_len)).length ≤ max_len
    rw [String.mk_length]
    exact sanitizeL_length_le name.data max_len
  · intro c h
    exact mem_sanitizeCore_not_illegal (sanitizeL_subset_core _ _ c h)

/-- C7 witness: the theorem at a concrete name containing `:`, `?`, `*`
and exceeding a cap of 5. -/
theorem C7_witness :
    (sanitize_filename "a:b?c*ddddd" 5).length ≤ 5 ∧
    ∀ c ∈ (sanitize_filename "a:b?c*ddddd" 5).data, illegalChar c = false :=
  C7_sanitize_filename_safe "a:b?c*ddddd" 5

/-! ## C9: sanitize_filename is idempotent -/

lemma collapseAux_spacesBlank (b : Bool) (l : List Char) :
    spacesBlank (collapseAux b l) := by
  induction l generalizing b with
  | nil => intro c h; exact absurd h (List.not_mem_nil c)
  | cons x xs ih =>
    intro c hc hsp
    unfold collapseAux at hc
    by_cases hx : pySpace x
    · rw [if_pos hx] at hc
      cases b with
      | true => exact ih true c hc hsp
      | false =>
        rcases List.mem_cons.mp hc with h' | h'
        · exact h'
        · exact ih true c h' hsp
    · rw [if_neg hx] at hc
      rcases List.mem_cons.mp hc with h' | h'
      · exact absurd (h' ▸ hsp) hx
      · exact ih false c h' hsp

lemma collapseAux_true_head (l : List Char) :
    headNoSpace (collapseAux true l) = true := by
  induction l with
  | nil => rfl
  | cons x xs ih =>
    unfold collapseAux
    by_cases hx : pySpace x
    · rw [if_pos hx]; exact ih
    · rw [if_neg hx]
      unfold headNoSpace
      simp [hx]

lemma collapseAux_noTwo (b : Bool) (l : List Char) :
    noTwo (collapseAux b l) := by
  induction l generalizing b with
  | nil => exact List.chain'_nil
  | cons x xs ih =>
    unfold collapseAux
    by_cases hx : pySpace x
    · rw [if_pos hx]
      cases b with
      | true => exact ih true
      | false =>
        refine List.chain'_cons'.mpr ⟨?_, ih true⟩
        intro y hy
        have hh := collapseAux_true_head xs
        cases hcol : collapseAux true xs with
        | nil => rw [hcol] at hy; exact absurd hy (by simp)
        | cons z zs =>
          rw [hcol] at hy
          simp only [List.head?_cons, Option.mem_def, Option.some.injEq] at hy
          rw [hcol] at hh
          unfold headNoSpace at hh
          intro hcontra
          rw [← hy] at hcontra
          simp [hcontra.2] at hh
    · rw [if_neg hx]
      refine List.chain'_cons'.mpr ⟨?_, ih false⟩
      intro y _ hcontra
      exact hx hcontra.1

lemma head_dropWhile_pySpace (l : List Char) :
    headNoSpace (l.dropWhile pySpace) = true := by
  induction l with
  | nil => rfl
  | cons x xs ih =>
    rw [List.dropWhile_cons]
    by_cases hx : pySpace x
    · rw [if_pos hx]; exact ih
    · rw [if_neg hx]; unfold headNoSpace; simp [hx]

lemma headNoSpace_of_prefix {l₁ l₂ : List Char} (hp : l₁ <+: l₂)
    (h : headNoSpace l₂ = true) : headNoSpace l₁ = true := by
  cases l₁ with
  | nil => rfl
  | cons c r =>
    obtain ⟨t, ht⟩ := hp
    rw [← ht] at h
    exact h

lemma pyRstripL_front (l : List Char) : pyRstripL l <+: l := by
  unfold pyRstripL
  have h1 : l.reverse.dropWhile pySpace <:+ l.reverse :=
    List.dropWhile_suffix pySpace
  have h2 : (l.reverse.dropWhile pySpace).reverse.reverse <:+ l.reverse := by
    rw [List.reverse_reverse]; exact h1
  exact List.reverse_suffix.mp h2

lemma noTwo_reverse {l : List Char} (h : noTwo l) : noTwo l.reverse := by
  unfold noTwo at h ⊢
  rw [List.chain'_reverse]
  exact h.imp (fun a b hab => fun hc => hab ⟨hc.2, hc.1⟩)

lemma collapse_fix : ∀ (l : List Char) (b : Bool), spacesBlank l → noTwo l →
    (b = true → headNoSpace l = true) → collapseAux b l = l := by
  intro l
  induction l with
  | nil => intro b _ _ _; rfl
  | cons x xs ih =>
    intro b hsb hnt hhead
    have hsb' : spacesBlank xs := fun c hc => hsb c (List.mem_cons_of_mem x hc)
    have hnt' : noTwo xs := (List.chain'_cons'.mp hnt).2
    by_cases hx : pySpace x
    · have hb : b = false := by
        cases b with
        | false => rfl
        | true =>
          have hcontra := hhead rfl
          simp [headNoSpace, hx] at hcontra
      subst hb
      have hxblank : x = ' ' := hsb x (List.mem_cons_self x xs) hx
      have hxs_head : headNoSpace xs = true := by
        cases xs with
        | nil => rfl
        | cons y ys =>
          have hr := (List.chain'_cons'.mp hnt).1 y (by simp)
          unfold headNoSpace
          by_cases hy : pySpace y
          · exact absurd ⟨hx, hy⟩ hr
          · simp [hy]
      unfold collapseAux
      rw [if_pos hx, if_neg (by simp : ¬ false = true)]
      rw [ih true hsb' hnt' (fun _ => hxs_head), hxblank]
    · unfold collapseAux
      rw [if_neg hx, ih false hsb' hnt' (by simp)]

lemma dropWhile_fix {l : List Char} (h : headNoSpace l = true) :
    l.dropWhile pySpace = l := by
  cases l with
  | nil => rfl
  | cons c r =>
    unfold headNoSpace at h
    rw [List.dropWhile_cons, if_neg]
    simp only [Bool.not_eq_true'] at h
    simp [h]

lemma pyStripL_fix {l : List Char} (h1 : headNoSpace l = true)
    (h2 : headNoSpace l.reverse = true) : pyStripL l = l := by
  unfold pyStripL
  rw [dropWhile_fix h1, dropWhile_fix h2, List.reverse_reverse]

lemma map_replace_id {l : List Char} (h : ∀ c ∈ l, illegalChar c = false) :
    l.map (fun c => if illegalChar c then '_' else c) = l := by
  induction l with
  | nil => rfl
  | cons x xs ih =>
    have hx := h x (List.mem_cons_self x xs)
    have hxs := fun c hc => h c (List.mem_cons_of_mem x hc)
    simp [hx, ih hxs]

lemma sanitizeCore_spacesBlank (l : List Char) : spacesBlank (sanitizeCore l) :=
  fun c hc hsp =>
    collapseAux_spacesBlank false _ c (pyStripL_subset _ c hc) hsp

lemma sanitizeCore_noTwo (l : List Char) : noTwo (sanitizeCore l) := by
  unfold sanitizeCore pyStripL
  have h0 := collapseAux_noTwo false
    (l.map (fun c => if illegalChar c then '_' else c))
  have h1 := List.Chain'.suffix h0 (List.dropWhile_suffix pySpace)
  have h2 := noTwo_reverse h1
  have h3 := List.Chain'.suffix h2 (List.dropWhile_suffix pySpace)
  exact noTwo_reverse h3

lemma sanitizeCore_head (l : List Char) :
    headNoSpace (sanitizeCore l) = true := by
  have heq : sanitizeCore l = pyRstripL
      ((collapseAux false
        (l.map (fun c => if illegalChar c then '_' else c))).dropWhile
          pySpace) := rfl
  rw [heq]
  exact headNoSpace_of_prefix (pyRstripL_front _) (head_dropWhile_pySpace _)

lemma sanitizeCore_last (l : List Char) :
    headNoSpace (sanitizeCore l).reverse = true := by
  unfold sanitizeCore pyStripL
  rw [List.reverse_reverse]
  exact head_dropWhile_pySpace _

lemma headNoSpace_take (l : List Char) (n : Nat)
    (h : headNoSpace l = true) : headNoSpace (l.take n) = true := by
  cases l with
  | nil => simp [headNoSpace]
  | cons c r =>
    cases n with
    | zero => rfl
    | succ m => exact h

lemma sanitizeL_spacesBlank (l : List Char) (n : Nat) :
    spacesBlank (sanitizeL l n) :=
  fun c hc => sanitizeCore_spacesBlank l c (sanitizeL_subset_core l n c hc)

lemma sanitizeL_noTwo (l : List Char) (n : Nat) : noTwo (sanitizeL l n) := by
  unfold sanitizeL
  split
  · exact List.Chain'.prefix ((sanitizeCore_noTwo l).take n)
      (pyRstripL_front _)
  · exact sanitizeCore_noTwo l

lemma sanitizeL_head (l : List Char) (n : Nat) :
    headNoSpace (sanitizeL l n) = true := by
  unfold sanitizeL
  split
  · exact headNoSpace_of_prefix (pyRstripL_front _)
      (headNoSpace_take _ _ (sanitizeCore_head l))
  · exact sanitizeCore_head l

lemma sanitizeL_last (l : List Char) (n : Nat) :
    headNoSpace (sanitizeL l n).reverse = true := by
  unfold sanitizeL
  split
  · unfold pyRstripL
    rw [List.reverse_reverse]
    exact head_dropWhile_pySpace _
  · exact sanitizeCore_last l

lemma sanitizeL_fix (m : List Char) (n : Nat)
    (hill : ∀ c ∈ m, illegalChar c = false) (hsb : spacesBlank m)
    (hnt : noTwo m) (hh : headNoSpace m = true)
    (hl : headNoSpace m.reverse = true) (hlen : m.length ≤ n) :
    sanitizeL m n = m := by
  have hcore : sanitizeCore m = m := by
    unfold sanitizeCore
    rw [map_replace_id hill, collapse_fix m false hsb hnt (by simp),
      pyStripL_fix hh hl]
  unfold sanitizeL
  rw [hcore, if_neg (by omega)]

/-- C9: `sanitize_filename` (at the Python default cap 200) is
idempotent: its output contains no illegal characters, no whitespace runs,
no leading or trailing whitespace, and fits the cap, so a second
application changes nothing. -/
theorem C9_sanitize_idempotent (s : String) :
    sanitize_filename (sanitize_filename s 200) 200 =
      sanitize_filename s 200 := by
  have h : sanitizeL (sanitizeL s.data 200) 200 = sanitizeL s.data 200 :=
    sanitizeL_fix _ 200
      (fun c hc =>
        mem_sanitizeCore_not_illegal (sanitizeL_subset_core _ _ c hc))
      (sanitizeL_spacesBlank _ _) (sanitizeL_noTwo _ _) (sanitizeL_head _ _)
      (sanitizeL_last _ _) (sanitizeL_length_le _ _)
  unfold sanitize_filename
  rw [show (String.mk (sanitizeL s.data 200)).data = sanitizeL s.data 200
    from rfl, h]

/-- C9 witness: idempotence at a concrete messy input. -/
theorem C9_witness :
    sanitize_filename (sanitize_filename "  a:  b??  c  " 200) 200 =
      sanitize_filename "  a:  b??  c  " 200 :=
  C9_sanitize_idempotent "  a:  b??  c  "

/-! ## Association-list lookup lemmas -/

lemma lookupA_append (k : String) (a b : List (String × α)) :
    lookupA k (a ++ b) =
      match lookupA k a with
      | some v => some v
      | none => lookupA k b := by
  induction a with
  | nil => rfl
  | cons p a' ih =>
    obtain ⟨k', v⟩ := p
    by_cases hk : k' = k
    · simp [lookupA, hk]
    · simp [lookupA, hk, ih]

lemma lookupA_none_iff (k : String) (l : List (String × α)) :
    lookupA k l = none ↔ ∀ p ∈ l, p.1 ≠ k := by
  induction l with
  | nil => simp [lookupA]
  | cons p l' ih =>
    obtain ⟨k', v⟩ := p
    by_cases hk : k' = k
    · simp [lookupA, hk]
    · simp [lookupA, hk, ih]

/-! ## Keys of the detail dictionary -/

lemma descField_keys (x : List Char) :
    ∀ p ∈ descField x, p.1 = "description" := by
  intro p hp
  unfold descField at hp
  cases h1 : descPrimary x with
  | some g => rw [h1] at hp; simp at hp; rw [hp]
  | none =>
    rw [h1] at hp
    cases h2 : descFallback x with
    | some g => rw [h2] at hp; simp at hp; rw [hp]
    | none => rw [h2] at hp; exact absurd hp (List.not_mem_nil p)

lemma evalField_keys (x : List Char) :
    ∀ p ∈ evalField x, p.1 = "evaluation" := by
  intro p hp
  unfold evalField at hp
  cases h1 : evalSearch x with
  | some g => rw [h1] at hp; simp at hp; rw [hp]
  | none => rw [h1] at hp; exact absurd hp (List.not_mem_nil p)

lemma sidebarFields_keys (sh : List Char) :
    ∀ p ∈ sidebarFields sh, p.1 ∈ sidebarKeys := by
  intro p hp
  simp only [sidebarFields, List.mem_cons, List.not_mem_nil, or_false] at hp
  rcases hp with rfl | rfl | rfl | rfl | rfl | rfl | rfl | rfl | rfl <;>
    simp [sidebarKeys]

/-- Every pair of the dictionary returned by `scrape_description_page`
comes from one of the five producing sites of the source. -/
lemma mem_scrape_description_page (ops : PageOps) (p : String × String)
    (hp : p ∈ scrape_description_page ops) :
    (∃ mh, ops.mainHtml = .ok mh ∧ p ∈ descField (mh.getD "").data) ∨
    (∃ mh, ops.mainHtml = .ok mh ∧ p ∈ evalField (mh.getD "").data) ∨
    p.1 = "full_page_text" ∨ p.1 = "error" ∨
    (∃ sh, ops.sidebarHtml = .ok sh ∧ p ∈ sidebarFields (sh.getD "").data) := by
  obtain ⟨g, m, mt, s⟩ := ops
  unfold scrape_description_page at hp
  dsimp only at hp ⊢
  cases g with
  | error e => simp at hp; rw [hp]; simp
  | ok u =>
    cases m with
    | error e => simp at hp; rw [hp]; simp
    | ok mh =>
      try dsimp only at hp
      by_cases ht : truthy mh
      · rw [if_pos ht] at hp
        try dsimp only at hp
        cases mt with
        | error e =>
          try dsimp only at hp
          rcases List.mem_append.mp hp with h1 | h1
          · rcases List.mem_append.mp h1 with h2 | h2
            · exact Or.inl ⟨mh, rfl, h2⟩
            · exact Or.inr (Or.inl ⟨mh, rfl, h2⟩)
          · simp at h1; rw [h1]; simp
        | ok mtv =>
          try dsimp only at hp
          unfold sidebarStep at hp
          try dsimp only at hp
          cases s with
          | error e =>
            try dsimp only at hp
            rcases List.mem_append.mp hp with h1 | h1
            · rcases List.mem_append.mp h1 with h2 | h2
              · rcases List.mem_append.mp h2 with h3 | h3
                · exact Or.inl ⟨mh, rfl, h3⟩
                · exact Or.inr (Or.inl ⟨mh, rfl, h3⟩)
              · simp at h2; rw [h2]; simp
            · simp at h1; rw [h1]; simp
          | ok sh =>
            try dsimp only at hp
            by_cases hts : truthy sh
            · rw [if_pos hts] at hp
              rcases List.mem_append.mp hp with h1 | h1
              · rcases List.mem_append.mp h1 with h2 | h2
                · rcases List.mem_append.mp h2 with h3 | h3
                  · exact Or.inl ⟨mh, rfl, h3⟩
                  · exact Or.inr (Or.inl ⟨mh, rfl, h3⟩)
                · simp at h2; rw [h2]; simp
              · exact Or.inr (Or.inr (Or.inr (Or.inr ⟨sh, rfl, h1⟩)))
            · rw [if_neg hts] at hp
              rcases List.mem_append.mp hp with h1 | h1
              · rcases List.mem_append.mp h1 with h2 | h2
                · exact Or.inl ⟨mh, rfl, h2⟩
                · exact Or.inr (Or.inl ⟨mh, rfl, h2⟩)
              · simp at h1; rw [h1]; simp
      · rw [if_neg ht] at hp
        unfold sidebarStep at hp
        try dsimp only at hp
        cases s with
        | error e => simp at hp; rw [hp]; simp
        | ok sh =>
          try dsimp only at hp
          by_cases hts : truthy sh
          · rw [if_pos hts] at hp
            rw [List.nil_append] at hp
            exact Or.inr (Or.inr (Or.inr (Or.inr ⟨sh, rfl, hp⟩)))
          · rw [if_neg hts] at hp
            exact absurd hp (List.not_mem_nil p)

lemma scrape_description_page_keys (ops : PageOps) :
    ∀ p ∈ scrape_description_page ops, p.1 ∈ detailKeys := by
  intro p hp
  rcases mem_scrape_description_page ops p hp with
    ⟨mh, _, h⟩ | ⟨mh, _, h⟩ | h | h | ⟨sh, _, h⟩
  · rw [descField_keys _ p h]; simp [detailKeys]
  · rw [evalField_keys _ p h]; simp [detailKeys]
  · rw [h]; simp [detailKeys]
  · rw [h]; simp [detailKeys]
  · have := sidebarFields_keys _ p h
    simp only [sidebarKeys, List.mem_cons, List.not_mem_nil, or_false] at this
    rcases this with h' | h' | h' | h' | h' | h' | h' | h' | h' <;>
      (rw [h']; simp [detailKeys])

/-! ## C2: absent label -/

lemma dropLit?_eq_some {p l r : List Char} (h : dropLit? p l = some r) :
    l = p ++ r := by
  induction p generalizing l with
  | nil => simp [dropLit?] at h; rw [h]; rfl
  | cons x ps ih =>
    cases l with
    | nil => simp [dropLit?] at h
    | cons c cs =>
      unfold dropLit? at h
      by_cases hc : c = x
      · rw [if_pos hc] at h
        rw [List.cons_append, ← ih h, hc]
      · rw [if_neg hc] at h
        exact absurd h (by simp)

lemma dropLit?_self_append (p r : List Char) : dropLit? p (p ++ r) = some r := by
  induction p with
  | nil => rfl
  | cons x ps ih => simp [dropLit?, ih]

lemma occursIn_of_isSome {pat l : List Char}
    (h : (dropLit? pat l).isSome = true) : occursIn pat l = true := by
  cases l with
  | nil => exact h
  | cons c cs => unfold occursIn; rw [h]; rfl

lemma occursIn_append_left (a : List Char) {pat m : List Char}
    (h : occursIn pat m = true) : occursIn pat (a ++ m) = true := by
  induction a with
  | nil => exact h
  | cons c a' ih =>
    rw [List.cons_append]
    show ((dropLit? pat (c :: (a' ++ m))).isSome || occursIn pat (a' ++ m))
      = true
    rw [ih, Bool.or_true]

lemma occursIn_self_append (pat r : List Char) :
    occursIn pat (pat ++ r) = true :=
  occursIn_of_isSome (by rw [dropLit?_self_append]; rfl)

lemma spanAt_none_of_absent (pre sub lit2 : List Char)
    (term : List Char → Bool) (l : List Char)
    (h : occursIn sub l = false) : spanAt (pre ++ sub) lit2 term l = none := by
  unfold spanAt
  cases hd : dropLit? (pre ++ sub) l with
  | none => rfl
  | some r1 =>
    exfalso
    have hl : l = (pre ++ sub) ++ r1 := dropLit?_eq_some hd
    rw [hl, List.append_assoc] at h
    rw [occursIn_append_left pre (occursIn_self_append sub r1)] at h
    exact Bool.true_eq_false.mp h

lemma spanSearch_none_of_absent (pre sub lit2 : List Char)
    (term : List Char → Bool) :
    ∀ l : List Char, occursIn sub l = false →
      spanSearch (pre ++ sub) lit2 term l = none := by
  intro l
  induction l with
  | nil =>
    intro h
    unfold spanSearch searchCapture
    rw [spanAt_none_of_absent pre sub lit2 term [] h]
  | cons c cs ih =>
    intro h
    have hsplit : (dropLit? sub (c :: cs)).isSome = false ∧
        occursIn sub cs = false := by
      unfold occursIn at h
      exact Bool.or_eq_false_iff.mp h
    unfold spanSearch searchCapture
    rw [spanAt_none_of_absent pre sub lit2 term (c :: cs) h]
    exact ih hsplit.2

lemma descPrimary_none_of_absent {h : List Char}
    (habs : occursIn "Description:".data h = false) : descPrimary h = none := by
  unfold descPrimary
  rw [show "<strong>Description:".data =
    "<strong>".data ++ "Description:".data from rfl]
  exact spanSearch_none_of_absent _ _ _ _ h habs

lemma descFallback_none_of_absent {h : List Char}
    (habs : occursIn "Description:".data h = false) :
    descFallback h = none := by
  unfold descFallback
  rw [show "<strong>Description:".data =
    "<strong>".data ++ "Description:".data from rfl]
  exact spanSearch_none_of_absent _ _ _ _ h habs

lemma evalSearch_none_of_absent {h : List Char}
    (habs : occursIn "Evaluation:".data h = false) : evalSearch h = none := by
  unfold evalSearch
  rw [show "<strong>Evaluation:".data =
    "<strong>".data ++ "Evaluation:".data from rfl]
  exact spanSearch_none_of_absent _ _ _ _ h habs

lemma descField_empty_of_absent {x : List Char}
    (habs : occursIn "Description:".data x = false) : descField x = [] := by
  unfold descField
  rw [descPrimary_none_of_absent habs, descFallback_none_of_absent habs]

lemma evalField_empty_of_absent {x : List Char}
    (habs : occursIn "Evaluation:".data x = false) : evalField x = [] := by
  unfold evalField
  rw [evalSearch_none_of_absent habs]

/-- C2 counterexample: on a page whose main blob lacks the
`Description:` label, the returned mapping has NO `description` entry at
all (`lookup` gives `none`, not the claimed empty string). -/
theorem C2_counterexample :
    scrape_description_page
      { goto := .ok (), mainHtml := .ok (some "hello"),
        mainText := .ok (some "hello"), sidebarHtml := .ok none } =
      [("full_page_text", "hello")] ∧
    lookupA "description" (scrape_description_page
      { goto := .ok (), mainHtml := .ok (some "hello"),
        mainText := .ok (some "hello"), sidebarHtml := .ok none }) = none ∧
    lookupA "description" (scrape_description_page
      { goto := .ok (), mainHtml := .ok (some "hello"),
        mainText := .ok (some "hello"), sidebarHtml := .ok none }) ≠
      some "" := by
  refine ⟨by rfl, by rfl, by decide⟩

/-- C2 amended: when a bounded-span label (`Description:` or
`Evaluation:`) is absent from the main blob, no exception surfaces (the
extractor is total) and that label's field is simply absent from the
output mapping - lookup yields `none` rather than the empty string.  Each
label's conclusion depends only on that label's own absence. -/
theorem C2_absent_label_no_field (ops : PageOps) (mh : Option String)
    (hmain : ops.mainHtml = .ok mh) :
    (occursIn "Description:".data (mh.getD "").data = false →
      lookupA "description" (scrape_description_page ops) = none) ∧
    (occursIn "Evaluation:".data (mh.getD "").data = false →
      lookupA "evaluation" (scrape_description_page ops) = none) := by
  constructor
  · intro hdesc
    rw [lookupA_none_iff]
    intro p hp
    rcases mem_scrape_description_page ops p hp with
      ⟨mh', hm', hmem⟩ | ⟨mh', hm', hmem⟩ | hk | hk | ⟨sh, _, hmem⟩
    · rw [hmain] at hm'
      have : mh' = mh := (Except.ok.injEq _ _).mp hm'.symm
      rw [this, descField_empty_of_absent hdesc] at hmem
      exact absurd hmem (List.not_mem_nil p)
    · rw [evalField_keys _ p hmem]; decide
    · rw [hk]; decide
    · rw [hk]; decide
    · have hkey := sidebarFields_keys _ p hmem
      intro heq
      rw [heq] at hkey
      exact (by decide : ¬ ("description" ∈ sidebarKeys)) hkey
  · intro heval
    rw [lookupA_none_iff]
    intro p hp
    rcases mem_scrape_description_page ops p hp with
      ⟨mh', hm', hmem⟩ | ⟨mh', hm', hmem⟩ | hk | hk | ⟨sh, _, hmem⟩
    · rw [descField_keys _ p hmem]; decide
    · rw [hmain] at hm'
      have : mh' = mh := (Except.ok.injEq _ _).mp hm'.symm
      rw [this, evalField_empty_of_absent heval] at hmem
      exact absurd hmem (List.not_mem_nil p)
    · rw [hk]; decide
    · rw [hk]; decide
    · have hkey := sidebarFields_keys _ p hmem
      intro heq
      rw [heq] at hkey
      exact (by decide : ¬ ("evaluation" ∈ sidebarKeys)) hkey

/-- C2 witness: the amended theorem at concrete blobs, each lacking only
one of the two labels: a blob with `Evaluation:` but no `Description:`
has no description entry, and a blob with `Description:` but no
`Evaluation:` has no evaluation entry. -/
theorem C2_witness :
    lookupA "description" (scrape_description_page
      { goto := .ok (),
        mainHtml := .ok (some "<strong>Evaluation: </strong>Exam</p>"),
        mainText := .ok (some "Exam"),
        sidebarHtml := .ok none }) = none ∧
    lookupA "evaluation" (scrape_description_page
      { goto := .ok (),
        mainHtml := .ok (some "x<strong>Description: </strong>y"),
        mainText := .ok (some "x y"),
        sidebarHtml := .ok none }) = none :=
  ⟨(C2_absent_label_no_field
      { goto := .ok (),
        mainHtml := .ok (some "<strong>Evaluation: </strong>Exam</p>"),
        mainText := .ok (some "Exam"),
        sidebarHtml := .ok none }
      (some "<strong>Evaluation: </strong>Exam</p>") rfl).1 (by decide),
    (C2_absent_label_no_field
      { goto := .ok (),
        mainHtml := .ok (some "x<strong>Description: </strong>y"),
        mainText := .ok (some "x y"),
        sidebarHtml := .ok none }
      (some "x<strong>Description: </strong>y") rfl).2 (by decide)⟩

/-! ## C10: enrichment never overwrites row fields -/

lemma lookupA_map_update (e d : List (String × α)) (k : String)
    (hd : lookupA k d = none) :
    lookupA k (e.map (fun p =>
      match lookupA p.1 d with
      | some w => (p.1, w)
      | none => p)) = lookupA k e := by
  induction e with
  | nil => rfl
  | cons q e' ih =>
    obtain ⟨k', v⟩ := q
    by_cases hk : k' = k
    · subst hk
      rw [List.map_cons]
      cases hlk : lookupA k' d with
      | some w => rw [hlk] at hd; exact absurd hd (by simp)
      | none => simp [lookupA, hlk]
    · rw [List.map_cons]
      cases hlk : lookupA k' d with
      | some w => simp [lookupA, hlk, hk, ih]
      | none => simp [lookupA, hlk, hk, ih]

lemma lookupA_filter_none (d : List (String × α))
    (g : String × α → Bool) (k : String) (hd : lookupA k d = none) :
    lookupA k (d.filter g) = none :=
  (lookupA_none_iff k _).mpr fun p hp =>
    (lookupA_none_iff k d).mp hd p (List.mem_of_mem_filter hp)

lemma lookupA_updateAssoc_of_none (e d : List (String × α)) (k : String)
    (hd : lookupA k d = none) :
    lookupA k (updateAssoc e d) = lookupA k e := by
  unfold updateAssoc
  rw [lookupA_append, lookupA_map_update e d k hd]
  cases h : lookupA k e with
  | some v => rfl
  | none => exact lookupA_filter_none d _ k hd

/-- C10: the Detail Fetcher's key set is contained in `detailKeys`, which
is disjoint from the RowSummary key set `osgoodeRowKeys` (exactly the keys
of the entry builder), so `entry.update(detail)` leaves every originally
captured row field unchanged. -/
theorem C10_enrichment_frame :
    (∀ k ∈ osgoodeRowKeys, ¬ k ∈ detailKeys) ∧
    (∀ (ops : PageOps) (p : String × String),
      p ∈ scrape_description_page ops → p.1 ∈ detailKeys) ∧
    (∀ (t h : String) (cells : List String) (p : String × String),
      p ∈ mkOsgoodeEntry t h cells → p.1 ∈ osgoodeRowKeys) ∧
    (∀ (t h : String) (cells : List String) (ops : PageOps) (k : String),
      k ∈ osgoodeRowKeys →
      lookupA k (processOsgoodeRow (mkOsgoodeEntry t h cells) ops) =
        lookupA k (mkOsgoodeEntry t h cells)) := by
  refine ⟨by decide, scrape_description_page_keys, ?_, ?_⟩
  · intro t h cells p hp
    simp only [mkOsgoodeEntry, List.mem_cons, List.not_mem_nil, or_false] at hp
    rcases hp with rfl | rfl | rfl | rfl | rfl | rfl | rfl | rfl | rfl | rfl |
      rfl | rfl | rfl <;> simp [osgoodeRowKeys]
  · intro t h cells ops k hk
    unfold processOsgoodeRow
    apply lookupA_updateAssoc_of_none
    rw [lookupA_none_iff]
    intro p hp heq
    have h1 := scrape_description_page_keys ops p hp
    rw [heq] at h1
    have hdisj : ∀ k ∈ osgoodeRowKeys, ¬ k ∈ detailKeys := by decide
    exact hdisj k hk h1

/-- C10 witness: a row field survives enrichment on a concrete failing
detail fetch. -/
theorem C10_witness :
    lookupA "title" (processOsgoodeRow (mkOsgoodeEntry "T" "h" [])
      { goto := .error "Timeout", mainHtml := .ok none, mainText := .ok none,
        sidebarHtml := .ok none }) =
      lookupA "title" (mkOsgoodeEntry "T" "h" []) :=
  C10_enrichment_frame.2.2.2 "T" "h" [] _ "title" (by decide)

/-! ## C1: failure isolation in the detail fetchers -/

lemma lookupA_error_main (x : List Char) :
    lookupA "error" (descField x ++ evalField x) = none := by
  rw [lookupA_none_iff]
  intro p hp
  rcases List.mem_append.mp hp with h1 | h1
  · rw [descField_keys _ p h1]; decide
  · rw [evalField_keys _ p h1]; decide

lemma lookupA_error_main_fpt (x : List Char) (v : String) :
    lookupA "error"
      (descField x ++ evalField x ++ [("full_page_text", v)]) = none := by
  rw [lookupA_none_iff]
  intro p hp
  rcases List.mem_append.mp hp with h1 | h1
  · rcases List.mem_append.mp h1 with h2 | h2
    · rw [descField_keys _ p h2]; decide
    · rw [evalField_keys _ p h2]; decide
  · simp at h1
    rw [h1]
    exact (by decide : ("full_page_text" : String) ≠ "error")

/-- When the try-block of `scrape_description_page` raises, the returned
dictionary records the message under `error`. -/
lemma scrape_description_page_error (ops : PageOps) (e : String)
    (h : pageFirstError ops = some e) :
    lookupA "error" (scrape_description_page ops) = some e := by
  obtain ⟨g, m, mt, s⟩ := ops
  unfold pageFirstError at h
  unfold scrape_description_page
  dsimp only at h ⊢
  cases g with
  | error eg =>
    simp at h
    rw [← h]
    rfl
  | ok u =>
    cases m with
    | error em =>
      simp at h
      rw [← h]
      rfl
    | ok mh =>
      try dsimp only at h ⊢
      by_cases ht : truthy mh
      · rw [if_pos ht] at h ⊢
        try dsimp only at h ⊢
        cases mt with
        | error emt =>
          simp at h
          rw [lookupA_append, lookupA_error_main]
          rw [← h]
          rfl
        | ok mtv =>
          unfold sidebarStep
          try dsimp only at h ⊢
          cases s with
          | error es =>
            simp at h
            rw [lookupA_append, lookupA_error_main_fpt]
            rw [← h]
            rfl
          | ok sh => simp at h
      · rw [if_neg ht] at h ⊢
        unfold sidebarStep
        try dsimp only at h ⊢
        cases s with
        | error es =>
          simp at h
          rw [← h]
          rfl
        | ok sh => simp at h

/-- C1 counterexample: a navigation timeout in
`download_pdf_from_course_page` is caught (the function returns normally
with an empty saved list) but the processed record carries NO error field,
contrary to the claim that both detail fetchers record one. -/
theorem C1_counterexample :
    pdfFirstError
      { goto := .error "Timeout 30000ms exceeded", links := .ok [],
        fetch := fun _ => .ok } = some "Timeout 30000ms exceeded" ∧
    download_pdf_from_course_page "DATA/F25" "T"
      { goto := .error "Timeout 30000ms exceeded", links := .ok [],
        fetch := fun _ => .ok } = [] ∧
    lookupA "error" (processOutlinesRow "DATA/F25"
      (mkOutlinesEntry "T" "/outlines2526.nsf/Courses/x" [])
      { goto := .error "Timeout 30000ms exceeded", links := .ok [],
        fetch := fun _ => .ok }) = none :=
  ⟨rfl, rfl, rfl⟩

/-- C1 amended: every exception raised during a detail visit is caught
inside the detail fetcher, which returns normally, and the per-row loop
processes every row; `scrape_description_page` records the failure in the
record's `error` field, while `download_pdf_from_course_page` only prints
it and returns the paths saved so far, so the outlines record gets a
`pdf_paths` value but never an `error` field. -/
theorem C1_failure_isolation :
    (∀ (ops : PageOps) (e : String), pageFirstError ops = some e →
      lookupA "error" (scrape_description_page ops) = some e) ∧
    (∀ rows : List (List (String × String) × PageOps),
      (processOsgoodeTab rows).length = rows.length) ∧
    (∀ (dest_dir : String) (rows : List (List (String × Val) × PdfOps)),
      (processOutlinesTab dest_dir rows).length = rows.length) ∧
    (∀ (dest_dir t h : String) (cells : List String) (ops : PdfOps),
      lookupA "error" (processOutlinesRow dest_dir
        (mkOutlinesEntry t h cells) ops) = none ∧
      lookupA "pdf_paths" (processOutlinesRow dest_dir
        (mkOutlinesEntry t h cells) ops) =
        some (.vList (download_pdf_from_course_page dest_dir t ops))) := by
  refine ⟨scrape_description_page_error, ?_, ?_, ?_⟩
  · intro rows
    unfold processOsgoodeTab
    exact List.length_map rows _
  · intro dest_dir rows
    unfold processOutlinesTab
    exact List.length_map rows _
  · intro dest_dir t h cells ops
    constructor
    · unfold processOutlinesRow setKey
      simp [mkOutlinesEntry, lookupA, lookupA_append]
    · unfold processOutlinesRow setKey
      simp [mkOutlinesEntry, lookupA, lookupA_append]

/-- C1 witness: the amended theorem at a concrete timeout for the osgoode
fetcher and at a concrete one-row outlines tab. -/
theorem C1_witness :
    lookupA "error" (scrape_description_page
      { goto := .error "Timeout 30000ms exceeded", mainHtml := .ok none,
        mainText := .ok none, sidebarHtml := .ok none }) =
      some "Timeout 30000ms exceeded" ∧
    (processOsgoodeTab [(mkOsgoodeEntry "T" "h" [],
      { goto := .error "Timeout 30000ms exceeded", mainHtml := .ok none,
        mainText := .ok none, sidebarHtml := .ok none })]).length = 1 :=
  ⟨C1_failure_isolation.1 _ "Timeout 30000ms exceeded" rfl,
    C1_failure_isolation.2.1 _⟩

/-! ## C3: the final summary -/

/-- C3 counterexample: two osgoode crawl results with the same total but
different error counts produce the very same final summary line - the
summary of src/scrape_osgoode.py line 218 cannot be reporting the number
of failed rows. -/
theorem C3_counterexample :
    errorCount [("Fall Courses", [[("title", "A")]])] = 0 ∧
    errorCount [("Fall Courses", [[("title", "A"), ("error", "Timeout")]])]
      = 1 ∧
    summaryOsgoode [("Fall Courses", [[("title", "A")]])] =
      summaryOsgoode
        [("Fall Courses", [[("title", "A"), ("error", "Timeout")]])] :=
  ⟨rfl, rfl, rfl⟩

/-- C3 amended: the outlines run's final summary reports both the total
row count and the count of rows with a downloaded PDF (it depends on
exactly those two numbers and distinguishes each); the osgoode run's final
summary reports only the total number of rows - rows that failed
enrichment are not visible in it. -/
theorem C3_summary_counts :
    (∀ r1 r2, totalCount r1 = totalCount r2 →
      summaryOsgoode r1 = summaryOsgoode r2) ∧
    (∀ r1 r2, downloadedCount r1 = downloadedCount r2 →
      totalCountO r1 = totalCountO r2 →
      summaryOutlines r1 = summaryOutlines r2) ∧
    summaryOsgoode [("Fall Courses", [[("title", "A")]])] ≠
      summaryOsgoode [("Fall Courses", [[("title", "A")], [("title", "B")]])] ∧
    summaryOutlines [("Fall", [[("pdf_paths", Val.vList [])]])] ≠
      summaryOutlines [("Fall", [[("pdf_paths", Val.vList ["DATA/F25/x.pdf"])]])] ∧
    summaryOutlines [("Fall", [[("pdf_paths", Val.vList ["DATA/F25/x.pdf"])]])] ≠
      summaryOutlines [("Fall", [[("pdf_paths", Val.vList ["DATA/F25/x.pdf"])],
        [("pdf_paths", Val.vList [])]])] := by
  refine ⟨?_, ?_, by decide, by decide, by decide⟩
  · intro r1 r2 h
    unfold summaryOsgoode
    rw [h]
  · intro r1 r2 h1 h2
    unfold summaryOutlines
    rw [h1, h2]

/-- C3 witness: the osgoode summary invariance at two concrete crawl
results with equal totals. -/
theorem C3_witness :
    summaryOsgoode [("Fall Courses", [[("title", "A")]])] =
      summaryOsgoode [("Winter Courses", [[("section", "B")]])] :=
  C3_summary_counts.1 _ _ rfl
